import Mathlib

set_option maxRecDepth 100000

/-!
Shallow embedding of the 7z archive writer (`create7zfile.py`) and its
companion VarInt codec (`tmp/test_encode_uint64.py`).

Bytes are modelled as natural numbers below 256, byte strings as `List Nat`.
The output file is modelled as a function from positions to byte values
(holes created by seeking past the end read back as zero, as on a sparse
POSIX file) together with a size.  Machine integers of the Python `struct`
module are modelled with explicit `% 2 ^ w` truncation where relevant.
The external LZMA compressor is an opaque collaborator: each `write` call
receives the compressed byte string it produced as an input.
-/

namespace SevenZip

/-- One step of the bitwise (reflected, polynomial 0xEDB88320) CRC-32. -/
def crc32Step (c : Nat) : Nat :=
  if c % 2 = 1 then (c / 2) ^^^ 0xEDB88320 else c / 2

/-- Iterate `crc32Step` eight times, once per bit of a byte. -/
def crc32Loop : Nat → Nat → Nat
  | c, 0 => c
  | c, k + 1 => crc32Loop (crc32Step c) k

/-- Fold one byte into the running CRC-32 register. -/
def crc32Update (c b : Nat) : Nat := crc32Loop (c ^^^ b % 256) 8

/-- `zlib.crc32(data, prev)`: CRC-32 (IEEE) with continuation semantics. -/
def crc32Cont (prev : Nat) (data : List Nat) : Nat :=
  (data.foldl crc32Update (prev ^^^ 0xFFFFFFFF)) ^^^ 0xFFFFFFFF

/-- `zlib.crc32(data)` with the default starting value 0. -/
def crc32 (data : List Nat) : Nat := crc32Cont 0 data

/-- `struct.pack` of an unsigned little-endian integer on `n` bytes
(`pack` with formats `<B`, `<L`, `<Q`).  The Python call raises on values
outside `[0, 2 ^ (8 n))`; callers below only reach it with in-range values,
which the theorems make explicit where it matters. -/
def packLE : Nat → Nat → List Nat
  | 0, _ => []
  | n + 1, v => v % 256 :: packLE n (v / 256)

/-- Read back a little-endian byte string as a natural number. -/
def parseLE : List Nat → Nat
  | [] => 0
  | b :: bs => b % 256 + 256 * parseLE bs

/-- `struct.pack` with native format `L` (no `<` prefix): C `unsigned long`
in native byte order with native size.  On the LP64 platforms this code
targets (Linux and macOS on 64-bit CPUs) that is EIGHT little-endian bytes,
not four. -/
def packNativeL (v : Nat) : List Nat := packLE 8 v

/-- The scanning loop of `_write_64_bit` / `encode` (`while i < 8`).
`fuel` equals `8 - i` at every call, so the `i < 8` test of the source is
exactly `fuel > 0`.  Returns `(first_byte, i)`. -/
def headLoopGo (value : Nat) : Nat → Nat → Nat → Nat → Nat × Nat
  | first_byte, _mask, i, 0 => (first_byte, i)
  | first_byte, mask, i, fuel + 1 =>
    if value < 1 <<< (7 * (i + 1)) then
      (first_byte ||| value >>> (8 * i), i)
    else
      headLoopGo value (first_byte ||| mask) (mask >>> 1) (i + 1) fuel

/-- `first_byte = 0`, `mask = 0x80`, `i = 0` entry into the scanning loop. -/
def headLoop (value : Nat) : Nat × Nat := headLoopGo value 0 0x80 0 8

/-- The trailing loop of `_write_64_bit` / `encode`: emit `i` low-order
bytes of `value`, least significant first. -/
def tailBytes : Nat → Nat → List Nat
  | _, 0 => []
  | value, i + 1 => value % 256 :: tailBytes (value / 256) i

/-- `SZFile._write_64_bit` (identical to `encode` in the test module): the
format's variable-length unsigned integer encoder, returned as the byte
string it writes. -/
def write_64_bit (value : Nat) : List Nat :=
  (headLoop value).1 :: tailBytes value (headLoop value).2

/-- Possible outcomes of the Python `decode` function: a returned integer,
the implicit `None` returned when the `for` loop falls through, or the
`TypeError` raised by `ord(b ...)` on an empty read. -/
inductive DecodeResult where
  | ok (v : Nat)
  | retNone
  | typeError
deriving DecidableEq, Repr

/-- `reduce(lambda x, y: x << 8 | y, bytes)` guarded by
`(bytes and ...) or 0`: folds most-significant-first, 0 for the empty list. -/
def reduceBytes (bs : List Nat) : Nat := bs.foldl (fun x y => x <<< 8 ||| y) 0

/-- The `for i in range(8)` loop of `decode`.  `rest` is the unread part of
the stream after the first byte `b`; `buf.read(i)` returns at most `i`
bytes, hence `rest.take i` with no length check.  `fuel` is the number of
remaining loop iterations (`8 - i`); when the loop is exhausted the Python
function falls off its end and returns `None`. -/
def decodeLoopGo (b : Nat) (rest : List Nat) : Nat → Nat → Nat → DecodeResult
  | _mask, _i, 0 => .retNone
  | mask, i, fuel + 1 =>
    if b &&& mask == 0 then
      .ok (reduceBytes (rest.take i).reverse + (b &&& (mask - 1)) <<< (i * 8))
    else
      decodeLoopGo b rest (mask >>> 1) (i + 1) fuel

/-- `decode` from the test module, over a byte stream given as a list.
`ord(buf.read(1))` raises `TypeError` on an exhausted stream. -/
def decode (buf : List Nat) : DecodeResult :=
  match buf with
  | [] => .typeError
  | b :: rest => decodeLoopGo b rest 0x80 0 8

/-- `SZInfo`: the in-memory record of one archived file.  Filenames are
modelled as their sequence of UTF-16 code units (each below `2 ^ 16`), so
`filename.length` is Python `len(filename)` for the names in scope.
`modify_time` is carried opaquely (the source stores `st_mtime` and never
serializes it); `attributes` is always 8192 at creation and never read. -/
structure SZInfo where
  filename : List Nat
  modify_time : Int
  uncompressed_size : Nat
  attributes : Nat
  compressed_size : Nat
  crc : Nat
deriving DecidableEq, Repr

/-- `f.filename.encode("utf-16")[2:]`: UTF-16 in native (little-endian)
byte order with the 2-byte BOM stripped, i.e. two little-endian bytes per
code unit. -/
def utf16le (name : List Nat) : List Nat :=
  (name.map (fun u => [u % 256, u / 256 % 256])).flatten

/-- `SZFile._write_main_pack_info`: pack-info property block. -/
def writeMainPackInfo (files : List SZInfo) : List Nat :=
  [0x06] ++ write_64_bit 0 ++ write_64_bit files.length ++ [0x09]
    ++ (files.map (fun f => write_64_bit f.compressed_size)).flatten
    ++ [0x00]

/-- `SZFile._write_coder_info`: the single coder-description byte,
`0x20` (has attributes) or-ed with the method-id size 1. -/
def coder_info : Nat := (0 ||| 0x20) ||| 1

/-- `SZFile._write_folders_info`: one folder description — coder count 1,
the coder-info byte, the method id byte `b"!"` (0x21), properties
length 1 and the single LZMA2 dictionary-size property byte 0x06. -/
def writeFoldersInfo : List Nat :=
  write_64_bit 1 ++ [coder_info] ++ [0x21] ++ write_64_bit 1 ++ [0x06]

/-- `SZFile._write_main_unpack_info`: unpack-info property block.  Note
that `writeFoldersInfo` is emitted exactly once, regardless of the number
of folders announced just before it. -/
def writeMainUnpackInfo (files : List SZInfo) : List Nat :=
  [0x07] ++ [0x0b] ++ write_64_bit files.length ++ [0x00]
    ++ writeFoldersInfo
    ++ [0x0c]
    ++ (files.map (fun f => write_64_bit f.uncompressed_size)).flatten
    ++ [0x00]

/-- `SZFile._write_main_digests`: digest-defined flag, then
`pack("L", f.crc)` for every entry in order. -/
def writeMainDigests (files : List SZInfo) : List Nat :=
  [0x01] ++ (files.map (fun f => packNativeL f.crc)).flatten

/-- `SZFile._write_main_substreams`: substreams-info property block. -/
def writeMainSubstreams (files : List SZInfo) : List Nat :=
  [0x08] ++ [0x0a] ++ writeMainDigests files ++ [0x00]

/-- `SZFile._write_main_streams`: main-streams-info property block. -/
def writeMainStreams (files : List SZInfo) : List Nat :=
  [0x04] ++ writeMainPackInfo files ++ writeMainUnpackInfo files
    ++ writeMainSubstreams files ++ [0x00]

/-- The fixed 8-byte last-write-time placeholder of `_write_files_info`
(source bytes `b"\xf3\xcf\x95\x08|\x1f\xd4\x01"`). -/
def tickPlaceholder : List Nat := [0xf3, 0xcf, 0x95, 0x08, 0x7c, 0x1f, 0xd4, 0x01]

/-- The bytes following the attributes property size varint in
`_write_files_info`: defined flag then `unhexlify("00202000")`. -/
def attrPropContent : List Nat := [0x01] ++ [0x00, 0x20, 0x20, 0x00]

/-- `SZFile._write_files_info`: files-info property block, emitted in
source line order — file count, name property (size accumulated as
`3 + 2 * len(filename)` per file), last-write-time property, attributes
property, and two end markers. -/
def writeFilesInfo (files : List SZInfo) : List Nat :=
  [0x05]
    ++ write_64_bit files.length
    ++ [0x11]
    ++ write_64_bit (files.foldl (fun size f => size + f.filename.length * 2) 3)
    ++ [0x00]
    ++ (files.map (fun f => utf16le f.filename ++ [0x00, 0x00])).flatten
    ++ [0x14] ++ write_64_bit 10 ++ [0x01] ++ [0x00] ++ tickPlaceholder
    ++ [0x15] ++ write_64_bit 6 ++ attrPropContent
    ++ [0x00] ++ [0x00]

/-- The end-header byte buffer assembled by `_write_end_header` before any
file output: header marker, main streams info, files info, end marker. -/
def endHeaderBytes (files : List SZInfo) : List Nat :=
  [0x01] ++ writeMainStreams files ++ writeFilesInfo files ++ [0x00]

/-- `unhexlify("377abcaf271c")`: the 7z magic. -/
def MAGIC_7Z : List Nat := [0x37, 0x7a, 0xbc, 0xaf, 0x27, 0x1c]

/-- `pack("<BB", 0, 4)`: the version bytes. -/
def VERSION_7Z : List Nat := [0, 4]

/-- Overlay the byte string `bs` on the file contents `f` starting at
position `pos` (the effect of `fd.write(bs)` with the cursor at `pos`). -/
def writeFn (f : Nat → Nat) (pos : Nat) (bs : List Nat) : Nat → Nat :=
  fun j => if pos ≤ j ∧ j < pos + bs.length then bs.getD (j - pos) 0 else f j

/-- Read `len` bytes of the file contents `f` starting at `pos`. -/
def readBytesAt (f : Nat → Nat) (pos len : Nat) : List Nat :=
  (List.range len).map (fun k => f (pos + k))

/-- The mutable state of `SZFile`: the output file (contents, size and
cursor) and the fields set in `SZFile.__init__`.  `files` models the
`OrderedDict` as its insertion-ordered list of values. -/
structure SZFile where
  fileData : Nat → Nat
  fileSize : Nat
  filePos : Nat
  header_written : Bool
  files : List SZInfo
  src_pos : Nat
  sig_header_pos : Option Nat
  end_header_pos : Option Nat

/-- `SZFile.__init__`: fresh output file (opened with mode `wb`, hence
truncated to zero bytes), cursor 0, no header written, no files,
`src_pos = 32`. -/
def szInit : SZFile :=
  { fileData := fun _ => 0, fileSize := 0, filePos := 0,
    header_written := false, files := [], src_pos := 32,
    sig_header_pos := none, end_header_pos := none }

/-- `self._fd.write(bs)`: overlay at the cursor, advance the cursor, grow
the recorded size. -/
def fdWrite (s : SZFile) (bs : List Nat) : SZFile :=
  { s with fileData := writeFn s.fileData s.filePos bs,
           fileSize := max s.fileSize (s.filePos + bs.length),
           filePos := s.filePos + bs.length }

/-- `self._fd.seek(p)`. -/
def fdSeek (s : SZFile) (p : Nat) : SZFile := { s with filePos := p }

/-- `SZFile._write_sig_header`: magic and version at the cursor, then
record the trailer position. -/
def writeSigHeader (s : SZFile) : SZFile :=
  let t := fdWrite s (MAGIC_7Z ++ VERSION_7Z)
  { t with sig_header_pos := some t.filePos }

/-- The header guard at the top of `SZFile.write`. -/
def ensureHeader (s : SZFile) : SZFile :=
  if s.header_written then s else { writeSigHeader s with header_written := true }

/-- The per-call inputs of `SZFile.write` that come from outside the
system: the path, the stat metadata, the source bytes (as folded into the
CRC) and the byte string the external LZMA2 compressor produced for them. -/
structure WriteInput where
  filename : List Nat
  modify_time : Int
  uncompressed : List Nat
  compressed : List Nat
deriving DecidableEq, Repr

/-- The `SZInfo` produced for one `write` call: constructed from `stat`
in `SZFile.write`, then `compressed_size` and `crc` accumulated by
`SZFile._compress`. -/
def mkInfo (inp : WriteInput) : SZInfo :=
  { filename := inp.filename, modify_time := inp.modify_time,
    uncompressed_size := inp.uncompressed.length, attributes := 8192,
    compressed_size := inp.compressed.length, crc := crc32 inp.uncompressed }

/-- `self._files[filename] = sz_info` on an `OrderedDict`: replace in
place when the key exists, else append. -/
def odInsert (files : List SZInfo) (info : SZInfo) : List SZInfo :=
  if files.any (fun f => f.filename == info.filename) then
    files.map (fun f => if f.filename == info.filename then info else f)
  else
    files ++ [info]

/-- `SZFile._compress` followed by the `self._files[filename] = sz_info`
line of `write`: seek to `src_pos`, write the compressed bytes, advance
`src_pos` to the new cursor, insert the entry record. -/
def addFile (s : SZFile) (inp : WriteInput) : SZFile :=
  let t := fdWrite (fdSeek s s.src_pos) inp.compressed
  { t with src_pos := t.filePos, files := odInsert s.files (mkInfo inp) }

/-- `SZFile._write_end_header`: record the end-header position, assemble
the buffer, write it at the cursor, then seek back to the signature header
trailer and patch `(start_crc, offset, size, crc)` as little-endian
`<L`, `<Q`, `<Q`, `<L` fields. -/
def writeEndHeader (s : SZFile) : SZFile :=
  let eh := endHeaderBytes s.files
  let off := packLE 8 (s.src_pos - 32)
  let sz := packLE 8 eh.length
  let ehcrc := packLE 4 (crc32 eh)
  let scrc := packLE 4 (crc32 (off ++ sz ++ ehcrc))
  let t := fdWrite s eh
  let t := fdSeek t (t.sig_header_pos.getD 0)
  let t := fdWrite t scrc
  let t := fdWrite t off
  let t := fdWrite t sz
  let t := fdWrite t ehcrc
  { t with end_header_pos := some s.src_pos }

/-- `SZFile.write`: ensure the signature header, compress and record the
file, re-finalize the end header. -/
def szWrite (s : SZFile) (inp : WriteInput) : SZFile :=
  writeEndHeader (addFile (ensureHeader s) inp)

/-- `SZFile.close`: flush and close the descriptor; the bytes on disk are
unchanged. -/
def szClose (s : SZFile) : SZFile := s

/-- A whole session: `SZFile(...)` then one `write` call per input. -/
def runWrites (ws : List WriteInput) : SZFile := ws.foldl szWrite szInit

/-- The 24 trailer bytes `_write_end_header` patches into the signature
header, as a function of the end-header position and bytes (source lines
computing `end_header_offset`, `end_header_size`, `end_header_crc` and
`start_header_crc`). -/
def trailerBytes (pos : Nat) (eh : List Nat) : List Nat :=
  packLE 4 (crc32 (packLE 8 (pos - 32) ++ packLE 8 eh.length ++ packLE 4 (crc32 eh)))
    ++ packLE 8 (pos - 32) ++ packLE 8 eh.length ++ packLE 4 (crc32 eh)

lemma packLE_length (n v : Nat) : (packLE n v).length = n := by
  induction n generalizing v with
  | zero => rfl
  | succ n ih => simp [packLE, ih]

lemma parseLE_packLE (n v : Nat) (h : v < 2 ^ (8 * n)) :
    parseLE (packLE n v) = v := by
  induction n generalizing v with
  | zero =>
    interval_cases v
    rfl
  | succ n ih =>
    have hv : v / 256 < 2 ^ (8 * n) := by
      rw [Nat.div_lt_iff_lt_mul (by norm_num)]
      calc v < 2 ^ (8 * (n + 1)) := h
        _ = 2 ^ (8 * n) * 256 := by ring
    simp only [packLE, parseLE, ih (v / 256) hv]
    omega

lemma range_map_getD : ∀ bs : List Nat,
    (List.range bs.length).map (fun k => bs.getD k 0) = bs
  | [] => rfl
  | b :: bs => by
    rw [List.length_cons, List.range_succ_eq_map, List.map_cons, List.map_map]
    simp only [Function.comp_def, List.getD_cons_zero]
    have : (fun k => (b :: bs).getD (Nat.succ k) 0) = (fun k => bs.getD k 0) := by
      funext k
      exact List.getD_cons_succ
    rw [this, range_map_getD bs]

/-- Reading back exactly the bytes just written. -/
lemma readBytesAt_writeFn_self (f : Nat → Nat) (pos : Nat) (bs : List Nat) :
    readBytesAt (writeFn f pos bs) pos bs.length = bs := by
  unfold readBytesAt
  have h : ∀ k ∈ List.range bs.length,
      writeFn f pos bs (pos + k) = bs.getD k 0 := by
    intro k hk
    rw [List.mem_range] at hk
    unfold writeFn
    rw [if_pos ⟨Nat.le_add_right _ _, by omega⟩]
    congr 1
    omega
  rw [List.map_congr_left h]
  exact range_map_getD bs

/-- A write entirely to the right of a read leaves the read unchanged. -/
lemma readBytesAt_writeFn_of_le (f : Nat → Nat) (pos : Nat) (bs : List Nat)
    (pos2 len : Nat) (h : pos2 + len ≤ pos) :
    readBytesAt (writeFn f pos bs) pos2 len = readBytesAt f pos2 len := by
  unfold readBytesAt
  apply List.map_congr_left
  intro k hk
  rw [List.mem_range] at hk
  unfold writeFn
  rw [if_neg]
  rintro ⟨h1, _⟩
  omega

/-- A write entirely to the left of a read leaves the read unchanged. -/
lemma readBytesAt_writeFn_of_ge (f : Nat → Nat) (pos : Nat) (bs : List Nat)
    (pos2 len : Nat) (h : pos + bs.length ≤ pos2) :
    readBytesAt (writeFn f pos bs) pos2 len = readBytesAt f pos2 len := by
  unfold readBytesAt
  apply List.map_congr_left
  intro k hk
  rw [List.mem_range] at hk
  unfold writeFn
  rw [if_neg]
  rintro ⟨_, h2⟩
  omega

/-- Two consecutive writes are one write of the concatenation. -/
lemma writeFn_writeFn (f : Nat → Nat) (p q : Nat) (a b : List Nat)
    (hq : q = p + a.length) :
    writeFn (writeFn f p a) q b = writeFn f p (a ++ b) := by
  subst hq
  funext j
  unfold writeFn
  by_cases h1 : p + a.length ≤ j ∧ j < p + a.length + b.length
  · rw [if_pos h1, if_pos ⟨by omega, by simp only [List.length_append]; omega⟩,
      List.getD_append_right a b 0 (j - p) (by omega)]
    congr 1
    omega
  · rw [if_neg h1]
    by_cases h2 : p ≤ j ∧ j < p + a.length
    · rw [if_pos h2, if_pos ⟨h2.1, by simp only [List.length_append]; omega⟩,
        List.getD_append a b 0 (j - p) (by omega)]
    · rw [if_neg h2, if_neg]
      simp only [List.length_append]
      omega

lemma trailerBytes_length (pos : Nat) (eh : List Nat) :
    (trailerBytes pos eh).length = 24 := by
  simp [trailerBytes, packLE_length]

/-- Reading back each of the four fields of a 4-8-8-4 byte write at
offset 8. -/
lemma read_trailer_parts (g : Nat → Nat) (t1 t2 t3 t4 : List Nat)
    (h1 : t1.length = 4) (h2 : t2.length = 8) (h3 : t3.length = 8)
    (h4 : t4.length = 4) :
    readBytesAt (writeFn g 8 (t1 ++ t2 ++ t3 ++ t4)) 8 4 = t1 ∧
    readBytesAt (writeFn g 8 (t1 ++ t2 ++ t3 ++ t4)) 12 8 = t2 ∧
    readBytesAt (writeFn g 8 (t1 ++ t2 ++ t3 ++ t4)) 20 8 = t3 ∧
    readBytesAt (writeFn g 8 (t1 ++ t2 ++ t3 ++ t4)) 28 4 = t4 := by
  have hsplit : writeFn g 8 (t1 ++ t2 ++ t3 ++ t4)
      = writeFn (writeFn (writeFn (writeFn g 8 t1) 12 t2) 20 t3) 28 t4 := by
    rw [writeFn_writeFn _ _ _ _ _ (by omega),
      writeFn_writeFn _ _ _ _ _ (by omega),
      writeFn_writeFn _ _ _ _ _ (by omega)]
    simp [List.append_assoc]
  rw [hsplit]
  refine ⟨?_, ?_, ?_, ?_⟩
  · rw [readBytesAt_writeFn_of_le _ _ _ _ _ (by omega),
      readBytesAt_writeFn_of_le _ _ _ _ _ (by omega),
      readBytesAt_writeFn_of_le _ _ _ _ _ (by omega), ← h1,
      readBytesAt_writeFn_self]
  · rw [readBytesAt_writeFn_of_le _ _ _ _ _ (by omega),
      readBytesAt_writeFn_of_le _ _ _ _ _ (by omega), ← h2,
      readBytesAt_writeFn_self]
  · rw [readBytesAt_writeFn_of_le _ _ _ _ _ (by omega), ← h3,
      readBytesAt_writeFn_self]
  · rw [← h4, readBytesAt_writeFn_self]

/-- Effect of one finalize call: the end-header bytes land at `src_pos`,
and the 24 trailer bytes land at offset 8, while the entry list, `src_pos`
and the signature-header position are unchanged. -/
lemma writeEndHeader_spec (u : SZFile) (hpos : u.filePos = u.src_pos)
    (hsig : u.sig_header_pos = some 8) (hsrc : 32 ≤ u.src_pos) :
    (writeEndHeader u).files = u.files ∧
    (writeEndHeader u).src_pos = u.src_pos ∧
    (writeEndHeader u).end_header_pos = some u.src_pos ∧
    (writeEndHeader u).header_written = u.header_written ∧
    (writeEndHeader u).sig_header_pos = some 8 ∧
    (writeEndHeader u).filePos = 32 ∧
    readBytesAt (writeEndHeader u).fileData u.src_pos
        (endHeaderBytes u.files).length = endHeaderBytes u.files ∧
    readBytesAt (writeEndHeader u).fileData 8 24
        = trailerBytes u.src_pos (endHeaderBytes u.files) ∧
    readBytesAt (writeEndHeader u).fileData 8 4
        = packLE 4 (crc32 (packLE 8 (u.src_pos - 32)
            ++ packLE 8 (endHeaderBytes u.files).length
            ++ packLE 4 (crc32 (endHeaderBytes u.files)))) ∧
    readBytesAt (writeEndHeader u).fileData 12 8
        = packLE 8 (u.src_pos - 32) ∧
    readBytesAt (writeEndHeader u).fileData 20 8
        = packLE 8 (endHeaderBytes u.files).length ∧
    readBytesAt (writeEndHeader u).fileData 28 4
        = packLE 4 (crc32 (endHeaderBytes u.files)) := by
  have hdata : (writeEndHeader u).fileData
      = writeFn (writeFn u.fileData u.src_pos (endHeaderBytes u.files)) 8
          (trailerBytes u.src_pos (endHeaderBytes u.files)) := by
    unfold writeEndHeader
    simp only [fdWrite, fdSeek, hsig, hpos, Option.getD_some, packLE_length]
    rw [writeFn_writeFn _ _ _ _ _ (by simp [packLE_length]),
      writeFn_writeFn _ _ _ _ _ (by simp [packLE_length]),
      writeFn_writeFn _ _ _ _ _ (by simp [packLE_length])]
    rw [trailerBytes]
    simp [List.append_assoc]
  have hdata2 : (writeEndHeader u).fileData
      = writeFn (writeFn u.fileData u.src_pos (endHeaderBytes u.files)) 8
          (packLE 4 (crc32 (packLE 8 (u.src_pos - 32)
              ++ packLE 8 (endHeaderBytes u.files).length
              ++ packLE 4 (crc32 (endHeaderBytes u.files))))
            ++ packLE 8 (u.src_pos - 32)
            ++ packLE 8 (endHeaderBytes u.files).length
            ++ packLE 4 (crc32 (endHeaderBytes u.files))) := by
    rw [hdata, trailerBytes]
  obtain ⟨hp1, hp2, hp3, hp4⟩ := read_trailer_parts
    (writeFn u.fileData u.src_pos (endHeaderBytes u.files))
    (packLE 4 (crc32 (packLE 8 (u.src_pos - 32)
        ++ packLE 8 (endHeaderBytes u.files).length
        ++ packLE 4 (crc32 (endHeaderBytes u.files)))))
    (packLE 8 (u.src_pos - 32))
    (packLE 8 (endHeaderBytes u.files).length)
    (packLE 4 (crc32 (endHeaderBytes u.files)))
    (packLE_length _ _) (packLE_length _ _) (packLE_length _ _)
    (packLE_length _ _)
  refine ⟨rfl, rfl, rfl, rfl, ?_, ?_, ?_, ?_, ?_, ?_, ?_, ?_⟩
  · show u.sig_header_pos = some 8
    exact hsig
  · show u.sig_header_pos.getD 0 + (packLE 4 _).length + (packLE 8 _).length
        + (packLE 8 _).length + (packLE 4 _).length = 32
    simp [hsig, packLE_length]
  · rw [hdata, readBytesAt_writeFn_of_ge _ _ _ _ _
      (by rw [trailerBytes_length]; omega), readBytesAt_writeFn_self]
  · rw [hdata, ← trailerBytes_length u.src_pos (endHeaderBytes u.files),
      readBytesAt_writeFn_self]
  · rw [hdata2]
    exact hp1
  · rw [hdata2]
    exact hp2
  · rw [hdata2]
    exact hp3
  · rw [hdata2]
    exact hp4

/-- Effect of one whole `write` call, from any state satisfying the
session invariant (signature trailer at offset 8 once the header is
written; cursor still at 0 before it is). -/
lemma szWrite_spec (s : SZFile) (inp : WriteInput)
    (hsig : s.header_written = true → s.sig_header_pos = some 8)
    (hfp : s.header_written = false → s.filePos = 0)
    (hsrc : 32 ≤ s.src_pos) :
    (szWrite s inp).files = odInsert s.files (mkInfo inp) ∧
    (szWrite s inp).src_pos = s.src_pos + inp.compressed.length ∧
    (szWrite s inp).end_header_pos
      = some (s.src_pos + inp.compressed.length) ∧
    (szWrite s inp).header_written = true ∧
    (szWrite s inp).sig_header_pos = some 8 ∧
    (szWrite s inp).filePos = 32 ∧
    readBytesAt (szWrite s inp).fileData (s.src_pos + inp.compressed.length)
        (endHeaderBytes (odInsert s.files (mkInfo inp))).length
      = endHeaderBytes (odInsert s.files (mkInfo inp)) ∧
    readBytesAt (szWrite s inp).fileData 8 24
      = trailerBytes (s.src_pos + inp.compressed.length)
          (endHeaderBytes (odInsert s.files (mkInfo inp))) ∧
    readBytesAt (szWrite s inp).fileData 8 4
      = packLE 4 (crc32 (packLE 8 (s.src_pos + inp.compressed.length - 32)
          ++ packLE 8 (endHeaderBytes (odInsert s.files (mkInfo inp))).length
          ++ packLE 4 (crc32 (endHeaderBytes (odInsert s.files (mkInfo inp)))))) ∧
    readBytesAt (szWrite s inp).fileData 12 8
      = packLE 8 (s.src_pos + inp.compressed.length - 32) ∧
    readBytesAt (szWrite s inp).fileData 20 8
      = packLE 8 (endHeaderBytes (odInsert s.files (mkInfo inp))).length ∧
    readBytesAt (szWrite s inp).fileData 28 4
      = packLE 4 (crc32 (endHeaderBytes (odInsert s.files (mkInfo inp)))) := by
  have hE1 : (ensureHeader s).src_pos = s.src_pos := by
    cases h : s.header_written <;>
      simp [ensureHeader, h, writeSigHeader, fdWrite]
  have hE2 : (ensureHeader s).files = s.files := by
    cases h : s.header_written <;>
      simp [ensureHeader, h, writeSigHeader, fdWrite]
  have hE4 : (ensureHeader s).header_written = true := by
    cases h : s.header_written <;> simp [ensureHeader, h]
  have hE3 : (ensureHeader s).sig_header_pos = some 8 := by
    cases h : s.header_written with
    | true => simpa [ensureHeader, h] using hsig h
    | false =>
      simp [ensureHeader, h, writeSigHeader, fdWrite, hfp h, MAGIC_7Z,
        VERSION_7Z]
  set u := addFile (ensureHeader s) inp with hu
  have hu1 : u.filePos = u.src_pos := rfl
  have hu2 : u.sig_header_pos = some 8 := hE3
  have hu3 : u.src_pos = s.src_pos + inp.compressed.length := by
    show (ensureHeader s).src_pos + inp.compressed.length = _
    rw [hE1]
  have hu4 : u.files = odInsert s.files (mkInfo inp) := by
    show odInsert (ensureHeader s).files (mkInfo inp) = _
    rw [hE2]
  have hsrc2 : 32 ≤ u.src_pos := by omega
  obtain ⟨w1, w2, w3, w4, w5, w6, w7, w8, w9, w10, w11, w12⟩ :=
    writeEndHeader_spec u hu1 hu2 hsrc2
  have hsz : szWrite s inp = writeEndHeader u := rfl
  rw [hsz]
  simp only [hu3, hu4] at w1 w2 w3 w7 w8 w9 w10 w11 w12
  exact ⟨w1, w2, w3, by rw [w4]; exact hE4, w5, w6, w7, w8, w9, w10,
    w11, w12⟩

lemma crc32Step_lt (c : Nat) (h : c < 2 ^ 32) : crc32Step c < 2 ^ 32 := by
  unfold crc32Step
  split
  · exact Nat.xor_lt_two_pow (by omega) (by norm_num)
  · omega

lemma crc32Loop_lt (c k : Nat) (h : c < 2 ^ 32) : crc32Loop c k < 2 ^ 32 := by
  induction k generalizing c with
  | zero => exact h
  | succ k ih => exact ih (crc32Step c) (crc32Step_lt c h)

lemma crc32Update_lt (c b : Nat) (h : c < 2 ^ 32) :
    crc32Update c b < 2 ^ 32 := by
  exact crc32Loop_lt _ _ (Nat.xor_lt_two_pow h (by have := Nat.mod_lt b (y := 256) (by norm_num); norm_num; omega))

/-- CRC-32 values always fit in 32 bits. -/
lemma crc32_lt (data : List Nat) : crc32 data < 2 ^ 32 := by
  unfold crc32 crc32Cont
  refine Nat.xor_lt_two_pow ?_ (by norm_num)
  have key : ∀ (l : List Nat) (c : Nat), c < 2 ^ 32
      → List.foldl crc32Update c l < 2 ^ 32 := by
    intro l
    induction l with
    | nil => intro c hc; exact hc
    | cons b l ih => intro c hc; exact ih _ (crc32Update_lt c b hc)
  exact key data _ (by decide)

/-- Session invariant: `src_pos` is 32 plus the total compressed length,
and the signature-header trailer position is 8 once any write happened. -/
lemma runWrites_inv (ws : List WriteInput) :
    (runWrites ws).src_pos
      = 32 + (ws.map (fun w => w.compressed.length)).sum ∧
    ((runWrites ws).header_written = true
      → (runWrites ws).sig_header_pos = some 8) ∧
    ((runWrites ws).header_written = false → (runWrites ws).filePos = 0) := by
  induction ws using List.reverseRecOn with
  | nil =>
    refine ⟨by simp [runWrites, szInit], ?_, ?_⟩
    · intro h
      simp [runWrites, szInit] at h
    · intro h
      rfl
  | append_singleton ws w ih =>
    have hfold : runWrites (ws ++ [w]) = szWrite (runWrites ws) w := by
      simp [runWrites, List.foldl_append]
    obtain ⟨ih1, ih2, ih3⟩ := ih
    have hsrc : 32 ≤ (runWrites ws).src_pos := by omega
    obtain ⟨s1, s2, s3, s4, s5, s6, s7, s8, s9, s10, s11, s12⟩ :=
      szWrite_spec (runWrites ws) w ih2 ih3 hsrc
    refine ⟨?_, ?_, ?_⟩
    · rw [hfold, s2, ih1]
      simp [List.sum_append]
      omega
    · rw [hfold]
      intro _
      exact s5
    · rw [hfold]
      intro h
      rw [s4] at h
      simp at h

/-- C2: after every `write()` call (i.e. after every finalize), the
signature header trailer at offset 8 holds, in order, a 4-byte LE CRC-32 of
the 20 bytes formed by the three following fields, an 8-byte LE next-header
offset equal to the end-header position minus 32, an 8-byte LE next-header
size equal to the end-header byte length, and a 4-byte LE CRC-32 of the
end-header bytes; and `next_header_offset + 32` is exactly the position at
which the end-header bytes were written. -/
theorem trailer_fields_correct (ws : List WriteInput) (w : WriteInput)
    (h64 : ((ws ++ [w]).map (fun x => x.compressed.length)).sum < 2 ^ 64)
    (hlen : (endHeaderBytes (runWrites (ws ++ [w])).files).length < 2 ^ 64) :
    ∃ p,
      (runWrites (ws ++ [w])).end_header_pos = some p ∧
      32 ≤ p ∧
      readBytesAt (runWrites (ws ++ [w])).fileData p
          (endHeaderBytes (runWrites (ws ++ [w])).files).length
        = endHeaderBytes (runWrites (ws ++ [w])).files ∧
      readBytesAt (runWrites (ws ++ [w])).fileData 8 24
        = trailerBytes p (endHeaderBytes (runWrites (ws ++ [w])).files) ∧
      (packLE 8 (p - 32)
        ++ packLE 8 (endHeaderBytes (runWrites (ws ++ [w])).files).length
        ++ packLE 4 (crc32 (endHeaderBytes (runWrites (ws ++ [w])).files))).length
        = 20 ∧
      parseLE (readBytesAt (runWrites (ws ++ [w])).fileData 12 8) + 32 = p ∧
      parseLE (readBytesAt (runWrites (ws ++ [w])).fileData 20 8)
        = (endHeaderBytes (runWrites (ws ++ [w])).files).length ∧
      parseLE (readBytesAt (runWrites (ws ++ [w])).fileData 28 4)
        = crc32 (endHeaderBytes (runWrites (ws ++ [w])).files) ∧
      parseLE (readBytesAt (runWrites (ws ++ [w])).fileData 8 4)
        = crc32 (packLE 8 (p - 32)
            ++ packLE 8 (endHeaderBytes (runWrites (ws ++ [w])).files).length
            ++ packLE 4 (crc32 (endHeaderBytes (runWrites (ws ++ [w])).files))) := by
  have hfold : runWrites (ws ++ [w]) = szWrite (runWrites ws) w := by
    simp [runWrites, List.foldl_append]
  obtain ⟨ih1, ih2, ih3⟩ := runWrites_inv ws
  have hsrc : 32 ≤ (runWrites ws).src_pos := by omega
  obtain ⟨s1, s2, s3, s4, s5, s6, s7, s8, s9, s10, s11, s12⟩ :=
    szWrite_spec (runWrites ws) w ih2 ih3 hsrc
  rw [hfold]
  rw [hfold] at hlen
  have hfiles : (szWrite (runWrites ws) w).files
      = odInsert (runWrites ws).files (mkInfo w) := s1
  rw [hfiles] at hlen ⊢
  refine ⟨(runWrites ws).src_pos + w.compressed.length, s3, by omega,
    s7, s8, by simp [packLE_length], ?_, ?_, ?_, ?_⟩
  · rw [s10, parseLE_packLE]
    · omega
    · rw [ih1]
      have hsum : ((ws ++ [w]).map (fun x => x.compressed.length)).sum
          = (ws.map (fun x => x.compressed.length)).sum
            + w.compressed.length := by
        simp [List.sum_append]
      omega
  · rw [s11, parseLE_packLE]
    exact hlen
  · rw [s12, parseLE_packLE]
    exact lt_of_lt_of_le (crc32_lt _) (by norm_num)
  · rw [s9, parseLE_packLE]
    exact lt_of_lt_of_le (crc32_lt _) (by norm_num)

/-- A concrete session input: file name "a", source bytes `[5, 6]`,
compressor output `[7]`. -/
def wWitness : WriteInput :=
  { filename := [97], modify_time := 0, uncompressed := [5, 6],
    compressed := [7] }

/-- Witness for `trailer_fields_correct` at the concrete one-write
session `[wWitness]`. -/
theorem trailer_fields_correct_witness :
    ((([] ++ [wWitness] : List WriteInput)).map
        (fun x => x.compressed.length)).sum < 2 ^ 64 ∧
    (endHeaderBytes (runWrites ([] ++ [wWitness])).files).length < 2 ^ 64 ∧
    (∃ p,
      (runWrites ([] ++ [wWitness])).end_header_pos = some p ∧
      32 ≤ p ∧
      readBytesAt (runWrites ([] ++ [wWitness])).fileData p
          (endHeaderBytes (runWrites ([] ++ [wWitness])).files).length
        = endHeaderBytes (runWrites ([] ++ [wWitness])).files ∧
      readBytesAt (runWrites ([] ++ [wWitness])).fileData 8 24
        = trailerBytes p (endHeaderBytes (runWrites ([] ++ [wWitness])).files) ∧
      (packLE 8 (p - 32)
        ++ packLE 8 (endHeaderBytes (runWrites ([] ++ [wWitness])).files).length
        ++ packLE 4 (crc32 (endHeaderBytes (runWrites ([] ++ [wWitness])).files))).length
        = 20 ∧
      parseLE (readBytesAt (runWrites ([] ++ [wWitness])).fileData 12 8) + 32
        = p ∧
      parseLE (readBytesAt (runWrites ([] ++ [wWitness])).fileData 20 8)
        = (endHeaderBytes (runWrites ([] ++ [wWitness])).files).length ∧
      parseLE (readBytesAt (runWrites ([] ++ [wWitness])).fileData 28 4)
        = crc32 (endHeaderBytes (runWrites ([] ++ [wWitness])).files) ∧
      parseLE (readBytesAt (runWrites ([] ++ [wWitness])).fileData 8 4)
        = crc32 (packLE 8 (p - 32)
            ++ packLE 8 (endHeaderBytes (runWrites ([] ++ [wWitness])).files).length
            ++ packLE 4 (crc32 (endHeaderBytes (runWrites ([] ++ [wWitness])).files)))) :=
  ⟨by decide, by decide,
    trailer_fields_correct [] wWitness (by decide) (by decide)⟩

/-- A concrete entry record: file "a" (one code unit), two source bytes,
one compressed byte. -/
def infoA : SZInfo :=
  { filename := [97], modify_time := 0, uncompressed_size := 2,
    attributes := 8192, compressed_size := 1, crc := 0 }

/-- A concrete entry record: file "b" (one code unit), three source bytes,
two compressed bytes. -/
def infoB : SZInfo :=
  { filename := [98], modify_time := 0, uncompressed_size := 3,
    attributes := 8192, compressed_size := 2, crc := 0 }

/-- A concrete entry record with a recognizable CRC value. -/
def infoCrc : SZInfo :=
  { filename := [97], modify_time := 0, uncompressed_size := 2,
    attributes := 8192, compressed_size := 1, crc := 0x12345678 }

/-- C1: the encoder reproduces the documented vectors, but the decoder
misses the nine-byte case the encoder emits for values of 56 or more
bits: `decode(encode(2 ^ 56))` falls off the scan loop and returns `None`
instead of `2 ^ 56`, so the round trip does not hold on all of
`[0, 2 ^ 64)`. -/
theorem varint_decode_misses_eight_byte_case :
    write_64_bit 8911 = [0xA2, 0xCF] ∧
    write_64_bit 26948 = [0xC0, 0x44, 0x69] ∧
    write_64_bit 0 = [0x00] ∧
    decode [0xA2, 0xCF] = DecodeResult.ok 8911 ∧
    decode [0xC0, 0x44, 0x69] = DecodeResult.ok 26948 ∧
    decode (write_64_bit 0) = DecodeResult.ok 0 ∧
    write_64_bit (2 ^ 56) = [0xFF, 0, 0, 0, 0, 0, 0, 0, 1] ∧
    decode (write_64_bit (2 ^ 56)) = DecodeResult.retNone := by
  decide

/-- C8: on a stream whose first byte announces more extra bytes than the
stream holds, `decode` silently returns a value computed from the missing
bytes as zero, and on an empty stream it raises `TypeError` — in no case
a `FormatError`. -/
theorem decode_truncated_no_error :
    decode [0xA2] = DecodeResult.ok 8704 ∧
    decode [0xC0, 0x44] = DecodeResult.ok 68 ∧
    decode [] = DecodeResult.typeError := by
  decide

/-- C3 (failing-input evaluation): with `pack("L", crc)` on an LP64
platform, each digest entry occupies eight bytes after the defined flag,
not four. -/
theorem digest_entries_are_eight_bytes :
    writeMainDigests [infoCrc]
      = [0x01, 0x78, 0x56, 0x34, 0x12, 0, 0, 0, 0] ∧
    (writeMainDigests [infoCrc]).length = 9 ∧
    ∀ files : List SZInfo,
      (writeMainDigests files).length = 1 + 8 * files.length := by
  refine ⟨by decide, by decide, ?_⟩
  intro files
  have key : ∀ fs : List SZInfo,
      ((fs.map (fun f => packNativeL f.crc)).flatten).length = 8 * fs.length := by
    intro fs
    induction fs with
    | nil => rfl
    | cons f fs ih =>
      simp only [List.map_cons, List.flatten_cons, List.length_append, ih]
      simp only [packNativeL, packLE_length, List.length_cons]
      ring
  simp only [writeMainDigests, List.length_append, List.length_cons,
    List.length_nil, key]

/-- C10: a session with no `write` call leaves the output file completely
empty — no magic, version or trailer bytes — because the signature header
is only emitted by the first `write`. -/
theorem empty_archive_when_no_write :
    (szClose (runWrites [])).fileSize = 0 ∧
    (szClose (runWrites [])).header_written = false ∧
    (szClose (runWrites [])).sig_header_pos = none ∧
    ∀ i, (szClose (runWrites [])).fileData i = 0 :=
  ⟨rfl, rfl, rfl, fun _ => rfl⟩

/-- Following the specification words for the unpack-info block: the
folder descriptor sequence is emitted once per folder, i.e. once per
entry, before the unpack-size tag.  Used only to compare the source
behaviour against the claim. -/
def specUnpackInfo (files : List SZInfo) : List Nat :=
  [0x07] ++ [0x0b] ++ write_64_bit files.length ++ [0x00]
    ++ (List.replicate files.length writeFoldersInfo).flatten
    ++ [0x0c]
    ++ (files.map (fun f => write_64_bit f.uncompressed_size)).flatten
    ++ [0x00]

/-- C4 (failing-input evaluation): for a two-entry archive the code emits
the five folder-descriptor bytes `01 21 21 01 06` once, while the claim
requires them once per folder; the produced block is exactly one
descriptor (five bytes) short. -/
theorem unpack_info_single_folder_descriptor :
    writeMainUnpackInfo [infoA, infoB]
      = [0x07, 0x0b, 2, 0x00, 0x01, 0x21, 0x21, 0x01, 0x06,
         0x0c, 0x02, 0x03, 0x00] ∧
    specUnpackInfo [infoA, infoB]
      = [0x07, 0x0b, 2, 0x00, 0x01, 0x21, 0x21, 0x01, 0x06,
         0x01, 0x21, 0x21, 0x01, 0x06, 0x0c, 0x02, 0x03, 0x00] ∧
    writeMainUnpackInfo [infoA, infoB] ≠ specUnpackInfo [infoA, infoB] ∧
    (writeMainUnpackInfo [infoA, infoB]).length + 5
      = (specUnpackInfo [infoA, infoB]).length := by
  decide

/-- Following the claim words for the last-write-time property: tag,
declared size 10, defined flag, external flag 0, then one 8-byte tick
value (the fixed placeholder) per entry.  Used only to compare the source
behaviour against the claim. -/
def specTimeProp (n : Nat) : List Nat :=
  [0x14] ++ write_64_bit 10 ++ [0x01] ++ [0x00]
    ++ (List.replicate n tickPlaceholder).flatten

/-- C5 (counterexample): for a two-entry archive, the files-info block
contains the fixed 8-byte placeholder exactly once — it is the block with
one tick value (`specTimeProp 1`), not the claimed per-entry block
(`specTimeProp 2`). -/
theorem time_property_not_per_entry :
    writeFilesInfo [infoA, infoB]
      = [0x05, 2, 0x11, 7, 0, 97, 0, 0, 0, 98, 0, 0, 0]
        ++ specTimeProp 1
        ++ [0x15, 6, 1, 0, 0x20, 0x20, 0, 0, 0] ∧
    writeFilesInfo [infoA, infoB]
      ≠ [0x05, 2, 0x11, 7, 0, 97, 0, 0, 0, 98, 0, 0, 0]
        ++ specTimeProp 2
        ++ [0x15, 6, 1, 0, 0x20, 0x20, 0, 0, 0] := by
  decide

/-- C5 (amended): for every archive with at least one entry, the
last-write-time property consists of the tag, declared size 10, the
defined flag, external flag 0 and a single fixed 8-byte placeholder tick
value emitted once, independent of the entry count; it sits directly
before the attributes property. -/
theorem time_property_fixed_placeholder (files : List SZInfo)
    (_h : 1 ≤ files.length) :
    tickPlaceholder.length = 8 ∧
    ∃ pre, writeFilesInfo files
      = pre ++ ([0x14] ++ write_64_bit 10 ++ [0x01] ++ [0x00]
            ++ tickPlaceholder)
          ++ ([0x15] ++ write_64_bit 6 ++ attrPropContent
            ++ [0x00] ++ [0x00]) := by
  refine ⟨rfl, ⟨[0x05] ++ write_64_bit files.length ++ [0x11]
    ++ write_64_bit (files.foldl (fun size f => size + f.filename.length * 2) 3)
    ++ [0x00]
    ++ (files.map (fun f => utf16le f.filename ++ [0x00, 0x00])).flatten, ?_⟩⟩
  simp [writeFilesInfo, List.append_assoc]

/-- Witness for `time_property_fixed_placeholder` at the one-entry
archive `[infoA]`. -/
theorem time_property_fixed_placeholder_witness :
    1 ≤ ([infoA] : List SZInfo).length ∧
    (tickPlaceholder.length = 8 ∧
    ∃ pre, writeFilesInfo [infoA]
      = pre ++ ([0x14] ++ write_64_bit 10 ++ [0x01] ++ [0x00]
            ++ tickPlaceholder)
          ++ ([0x15] ++ write_64_bit 6 ++ attrPropContent
            ++ [0x00] ++ [0x00])) :=
  ⟨by decide, time_property_fixed_placeholder [infoA] (by decide)⟩

/-- C6 (counterexample): for the single-entry archive whose name is "a"
(one UTF-16 code unit), the code declares name-property size 5
(`3 + 2 * 1`), while the claim formula — two bytes per code unit plus a
2-byte terminator per name plus 3 — gives 7; the emitted block carries 5,
not 7. -/
theorem name_size_omits_terminators :
    ([infoA] : List SZInfo).foldl
        (fun size f => size + f.filename.length * 2) 3 = 5 ∧
    2 * 1 + 2 + 3 = 7 ∧
    writeFilesInfo [infoA]
      = [0x05, 1, 0x11, 5, 0, 97, 0, 0, 0,
         0x14, 10, 1, 0, 0xf3, 0xcf, 0x95, 0x08, 0x7c, 0x1f, 0xd4, 0x01,
         0x15, 6, 1, 0, 0x20, 0x20, 0, 0, 0] ∧
    writeFilesInfo [infoA]
      ≠ [0x05, 1, 0x11, 7, 0, 97, 0, 0, 0,
         0x14, 10, 1, 0, 0xf3, 0xcf, 0x95, 0x08, 0x7c, 0x1f, 0xd4, 0x01,
         0x15, 6, 1, 0, 0x20, 0x20, 0, 0, 0] := by
  decide

/-- C6 (amended): the name-property size varint equals 3 plus two bytes
per UTF-16 code unit of each name — the per-name 2-byte terminators are
not counted — and the bytes that follow are the external flag 0 and each
entry's UTF-16LE name bytes with terminator, in insertion order. -/
theorem name_size_field_formula (files : List SZInfo) :
    writeFilesInfo files
      = [0x05] ++ write_64_bit files.length
        ++ [0x11]
        ++ write_64_bit
            (3 + 2 * (files.map (fun f => f.filename.length)).sum)
        ++ [0x00]
        ++ (files.map (fun f => utf16le f.filename ++ [0x00, 0x00])).flatten
        ++ [0x14] ++ write_64_bit 10 ++ [0x01] ++ [0x00] ++ tickPlaceholder
        ++ [0x15] ++ write_64_bit 6 ++ attrPropContent
        ++ [0x00] ++ [0x00] := by
  have hfold : ∀ (fs : List SZInfo) (init : Nat),
      fs.foldl (fun size f => size + f.filename.length * 2) init
        = init + 2 * (fs.map (fun f => f.filename.length)).sum := by
    intro fs
    induction fs with
    | nil => intro init; simp
    | cons f fs ih =>
      intro init
      simp only [List.foldl_cons, List.map_cons, List.sum_cons, ih]
      ring
  rw [writeFilesInfo, hfold]

/-- C7 (failing-input evaluation): the attributes property declares size
6 but is followed by only five content bytes (`01 00 20 20 00`) before
the two end markers, for any archive — shown here on the one-entry
archive. -/
theorem attributes_declared_size_mismatch :
    attrPropContent.length = 5 ∧
    write_64_bit 6 = [6] ∧
    writeFilesInfo [infoA]
      = [0x05, 1, 0x11, 5, 0, 97, 0, 0, 0,
         0x14, 10, 1, 0, 0xf3, 0xcf, 0x95, 0x08, 0x7c, 0x1f, 0xd4, 0x01,
         0x15, 6] ++ attrPropContent ++ [0, 0] := by
  decide

/-- A second concrete session input with the same path as `wWitness` but
different content. -/
def wSamePath : WriteInput :=
  { filename := [97], modify_time := 0, uncompressed := [1, 2, 3],
    compressed := [4, 5] }

/-- A concrete session input with a distinct path "b". -/
def wOther : WriteInput :=
  { filename := [98], modify_time := 0, uncompressed := [9],
    compressed := [11, 12] }

/-- C9 (counterexample): writing the same path twice does not append a
second entry record — the `OrderedDict` replaces the first record in
place, so two calls leave one entry (holding the second call's data), not
two. -/
theorem duplicate_path_replaces_entry :
    (runWrites [wWitness, wSamePath]).files.length = 1 ∧
    (runWrites [wWitness, wSamePath]).files = [mkInfo wSamePath] ∧
    ¬ (runWrites [wWitness, wSamePath]).files.length = 2 := by
  decide

lemma szWrite_files (s : SZFile) (inp : WriteInput) :
    (szWrite s inp).files = odInsert s.files (mkInfo inp) := by
  have hE : (ensureHeader s).files = s.files := by
    cases h : s.header_written <;>
      simp [ensureHeader, h, writeSigHeader, fdWrite]
  have hW : (szWrite s inp).files
      = odInsert (ensureHeader s).files (mkInfo inp) := rfl
  rw [hW, hE]

lemma odInsert_of_not_mem (fs : List SZInfo) (info : SZInfo)
    (h : ∀ f ∈ fs, ¬ f.filename = info.filename) :
    odInsert fs info = fs ++ [info] := by
  have hany : (fs.any (fun f => f.filename == info.filename)) = false := by
    rw [List.any_eq_false]
    intro f hf
    simpa using h f hf
  simp [odInsert, hany]

/-- With pairwise distinct paths, the entry list after a session is the
per-call records in call order. -/
lemma runWrites_files (ws : List WriteInput)
    (hnd : (ws.map (fun w => w.filename)).Nodup) :
    (runWrites ws).files = ws.map mkInfo := by
  induction ws using List.reverseRecOn with
  | nil => rfl
  | append_singleton ws w ih =>
    rw [List.map_append, List.nodup_append] at hnd
    obtain ⟨h1, _, h3⟩ := hnd
    have hfold : runWrites (ws ++ [w]) = szWrite (runWrites ws) w := by
      simp [runWrites, List.foldl_append]
    rw [hfold, szWrite_files, ih h1, List.map_append]
    apply odInsert_of_not_mem
    intro f hf heq
    rw [List.mem_map] at hf
    obtain ⟨w2, hw2, hfw⟩ := hf
    have hfn : f.filename = w2.filename := by
      rw [← hfw]
      rfl
    have heq2 : w2.filename = w.filename := by
      rw [← hfn]
      simpa [mkInfo] using heq
    have hmem : w.filename ∈ ws.map (fun w => w.filename) := by
      rw [← heq2]
      exact List.mem_map.mpr ⟨w2, hw2, rfl⟩
    exact h3 hmem (by simp)

/-- C9 (amended): for a session over pairwise-distinct paths, exactly one
entry record is appended per `write` call, in call order, and every later
serialization pass — pack sizes, unpack sizes, digests, names — maps over
the records in that same insertion order, so the k-th element of each
block belongs to the k-th added file. -/
theorem entries_in_insertion_order (ws : List WriteInput)
    (hnd : (ws.map (fun w => w.filename)).Nodup) :
    (runWrites ws).files = ws.map mkInfo ∧
    writeMainPackInfo (runWrites ws).files
      = [0x06] ++ write_64_bit 0 ++ write_64_bit ws.length ++ [0x09]
        ++ (ws.map (fun w => write_64_bit w.compressed.length)).flatten
        ++ [0x00] ∧
    (runWrites ws).files.map (fun f => write_64_bit f.uncompressed_size)
      = ws.map (fun w => write_64_bit w.uncompressed.length) ∧
    (runWrites ws).files.map (fun f => packNativeL f.crc)
      = ws.map (fun w => packNativeL (crc32 w.uncompressed)) ∧
    (runWrites ws).files.map (fun f => utf16le f.filename ++ [0x00, 0x00])
      = ws.map (fun w => utf16le w.filename ++ [0x00, 0x00]) := by
  have hfiles := runWrites_files ws hnd
  refine ⟨hfiles, ?_, ?_, ?_, ?_⟩ <;>
    simp [hfiles, writeMainPackInfo, List.map_map, Function.comp_def, mkInfo]

/-- Witness for `entries_in_insertion_order` at the two-file session
`[wWitness, wOther]`. -/
theorem entries_in_insertion_order_witness :
    (([wWitness, wOther].map (fun w => w.filename)).Nodup) ∧
    ((runWrites [wWitness, wOther]).files = [wWitness, wOther].map mkInfo ∧
    writeMainPackInfo (runWrites [wWitness, wOther]).files
      = [0x06] ++ write_64_bit 0 ++ write_64_bit ([wWitness, wOther].length)
        ++ [0x09]
        ++ ([wWitness, wOther].map
            (fun w => write_64_bit w.compressed.length)).flatten
        ++ [0x00] ∧
    (runWrites [wWitness, wOther]).files.map
        (fun f => write_64_bit f.uncompressed_size)
      = [wWitness, wOther].map (fun w => write_64_bit w.uncompressed.length) ∧
    (runWrites [wWitness, wOther]).files.map (fun f => packNativeL f.crc)
      = [wWitness, wOther].map (fun w => packNativeL (crc32 w.uncompressed)) ∧
    (runWrites [wWitness, wOther]).files.map
        (fun f => utf16le f.filename ++ [0x00, 0x00])
      = [wWitness, wOther].map
          (fun w => utf16le w.filename ++ [0x00, 0x00])) :=
  ⟨by decide, entries_in_insertion_order [wWitness, wOther] (by decide)⟩

end SevenZip
